import Mathlib

/-!
Verification of the AuditAPI scoring and rule-categorization engine.

The definitions below are a shallow embedding of the TypeScript source:
* `src/config/loader.ts` — configuration validators and the rule-function
  resolver (`validateWeights`, `validateGradingScale`, `resolveRuleFunctions`);
* `src/core/auditor.ts` — the scoring core (`getRuleCategory`,
  `convertResults`, `calculateCategoryScores`, `calculateGrade`,
  `Auditor.calculateScore`, summary counting in `Auditor.audit`);
* `src/functions/consistent-casing.js` — the casing-consistency detector.

JavaScript numbers are modelled as exact rationals (`ℚ`); JavaScript objects
used as string-keyed maps are modelled as association lists; optional values
(`undefined`) are modelled with `Option`.
-/

namespace AuditAPI

/-- Severity levels of `SpectralSeverity` (`"error" | "warn" | "info" | "hint"`). -/
inductive Severity where
  | error
  | warn
  | info
  | hint
deriving DecidableEq, Repr

/-- The `Violation` record of `types/config.ts` (lines/columns optional). -/
structure Violation where
  ruleId : String
  severity : Severity
  message : String
  path : String
  line : Option Nat := none
  column : Option Nat := none
deriving DecidableEq, Repr

/-- The `PenaltyRule` record: points to deduct and the fatal flag. -/
structure PenaltyRule where
  points : ℚ
  fatal : Bool
deriving DecidableEq, Repr

/-- The `GradeThreshold` record: inclusive `min`/`max` bounds. -/
structure GradeThreshold where
  min : ℚ
  max : ℚ
deriving DecidableEq, Repr

/-- The `GradingScale` record: one threshold per letter grade. -/
structure GradingScale where
  A : GradeThreshold
  B : GradeThreshold
  C : GradeThreshold
  D : GradeThreshold
  F : GradeThreshold
deriving DecidableEq, Repr

/-- The `CategoryWeights` record: one weight per fixed category. -/
structure CategoryWeights where
  security : ℚ
  completeness : ℚ
  «structure» : ℚ
  consistency : ℚ
  architecture : ℚ
deriving DecidableEq, Repr

/-- Access `scoringConfig.weights[category]` for a category name. -/
def weightOf (w : CategoryWeights) (c : String) : ℚ :=
  if c = "security" then w.security
  else if c = "completeness" then w.completeness
  else if c = "structure" then w.«structure»
  else if c = "consistency" then w.consistency
  else if c = "architecture" then w.architecture
  else 0

/-- The `ScoringConfig` record; `penalties` is a string-keyed map. -/
structure ScoringConfig where
  base_score : ℚ
  weights : CategoryWeights
  penalties : List (String × PenaltyRule)
  grading_scale : GradingScale
deriving DecidableEq, Repr

/-- The `CategoryScore` record produced per scored category. -/
structure CategoryScore where
  category : String
  weight : ℚ
  pointsDeducted : ℚ
  violations : List Violation
deriving DecidableEq, Repr

/-! ## Category classifier (`getRuleCategory`, auditor.ts) -/

/-- The tag-membership phase of `getRuleCategory`: inside `if (tags)`, the
four `tags.includes(...)` checks in source order, returning on first hit. -/
def tagCategory (tags : Option (List String)) : Option String :=
  match tags with
  | none => none
  | some ts =>
    if ts.contains "security" then some "security"
    else if ts.contains "completeness" then some "completeness"
    else if ts.contains "structure" then some "structure"
    else if ts.contains "consistency" then some "consistency"
    else none

/-- JavaScript `ruleId.startsWith(p)`, written on the character lists so
that it evaluates by `decide`. -/
def strStartsWith (s p : String) : Bool :=
  p.data.isPrefixOf s.data

/-- `getRuleCategory(ruleId, tags?)` from auditor.ts: explicit tags first,
then the rule-identifier prefix convention, then `'completeness'`. -/
def getRuleCategory (ruleId : String) (tags : Option (List String)) : String :=
  match tagCategory tags with
  | some c => c
  | none =>
    if strStartsWith ruleId "sec-" then "security"
    else if strStartsWith ruleId "com-" then "completeness"
    else if strStartsWith ruleId "str-" then "structure"
    else if strStartsWith ruleId "cns-" then "consistency"
    else "completeness"

/-- Modelled from the spec's words for §4.4 (used only to compare against
`getRuleCategory`): the first matching tag in the fixed priority order
decides; otherwise the first matching identifier prefix; otherwise
`completeness`. -/
def specClassify (ruleId : String) (tags : Option (List String)) : String :=
  let tagHit :=
    match tags with
    | none => none
    | some ts => (["security", "completeness", "structure", "consistency"]).find? fun c => ts.contains c
  match tagHit with
  | some c => c
  | none =>
    match ([("sec-", "security"), ("com-", "completeness"),
            ("str-", "structure"), ("cns-", "consistency")]).find? (fun p => strStartsWith ruleId p.1) with
    | some p => p.2
    | none => "completeness"

/-! ## Grade mapper (`calculateGrade`, auditor.ts) -/

/-- `calculateGrade(score, scale)`: first grade (best to worst) whose `min`
the score meets or exceeds; falls through to `'F'`. -/
def calculateGrade (score : ℚ) (scale : GradingScale) : String :=
  if score ≥ scale.A.min then "A"
  else if score ≥ scale.B.min then "B"
  else if score ≥ scale.C.min then "C"
  else if score ≥ scale.D.min then "D"
  else "F"

/-- `GRADE_ORDER` from the CLI (cli/index.ts): numeric rank of each letter
grade, higher is better.  Unlisted strings rank below every grade. -/
def GRADE_ORDER (g : String) : Nat :=
  if g = "A" then 5
  else if g = "B" then 4
  else if g = "C" then 3
  else if g = "D" then 2
  else if g = "F" then 1
  else 0

/-! ## Weights validator (`validateWeights`, loader.ts) -/

/-- The five required weight categories checked by `validateWeights`. -/
def requiredCategories : List String :=
  ["security", "completeness", "structure", "consistency", "architecture"]

/-- Sum of `Object.values(weights)` for a raw (unvalidated) weights object. -/
def weightsSum (weights : List (String × ℚ)) : ℚ :=
  (weights.map (·.2)).sum

/-- `validateWeights(weights)` from loader.ts: errors when the values do not
sum to 1.0 within 0.001, and for each missing required category. -/
def validateWeights (weights : List (String × ℚ)) : List String :=
  let sum := weightsSum weights
  (if |sum - 1| > 1/1000 then ["Category weights must sum to 1.0, got " ++ toString sum] else [])
    ++ requiredCategories.flatMap fun category =>
      if weights.any (fun kv => kv.1 == category) then []
      else ["Missing required weight category: " ++ category]

/-! ## Rule set model (`types/config.ts`) -/

/-- The concrete evaluator implementations that `SPECTRAL_FUNCTION_MAP` in
loader.ts can bind a symbolic function name to. -/
inductive SpectralFn where
  | truthy
  | falsy
  | defined
  | undef
  | pattern
  | schema
  | enumeration
  | length
  | alphabetical
  | casing
  | xor
  | unreferencedReusableObject
  | consistentCasing
deriving DecidableEq, Repr

/-- A `then` clause's `function` field: a symbolic name before resolution, a
bound evaluator after. -/
inductive FnRef where
  | name : String → FnRef
  | fn : SpectralFn → FnRef
deriving DecidableEq, Repr

/-- A `SpectralRuleThen` clause. -/
structure ThenClause where
  function : FnRef
  field : Option String := none
deriving DecidableEq, Repr

/-- The `then` field of a rule: a single clause or an ordered list. -/
inductive ThenValue where
  | single : ThenClause → ThenValue
  | clauses : List ThenClause → ThenValue
deriving DecidableEq, Repr

/-- The `SpectralRule` record (fields not used by the scoring core omitted). -/
structure SpectralRule where
  description : String
  severity : Severity
  tags : Option (List String) := none
  «then» : Option ThenValue := none
deriving DecidableEq, Repr

/-- The `SpectralRuleset` record: rule definitions keyed by rule ID. -/
structure SpectralRuleset where
  «extends» : Option (List String) := none
  rules : List (String × SpectralRule)
deriving DecidableEq, Repr

/-- `ruleset.rules[v.ruleId]?.tags`: the tags passed to `getRuleCategory`. -/
def ruleTags (ruleset : SpectralRuleset) (ruleId : String) : Option (List String) :=
  (ruleset.rules.lookup ruleId).bind (·.tags)

/-! ## Rule-function resolver (`resolveRuleFunctions`, loader.ts) -/

/-- `SPECTRAL_FUNCTION_MAP`: symbolic function names bound to evaluators. -/
def SPECTRAL_FUNCTION_MAP : List (String × SpectralFn) :=
  [("truthy", .truthy), ("falsy", .falsy), ("defined", .defined), ("undefined", .undef),
   ("pattern", .pattern), ("schema", .schema), ("enumeration", .enumeration),
   ("length", .length), ("alphabetical", .alphabetical), ("casing", .casing), ("xor", .xor),
   ("unreferencedReusableObject", .unreferencedReusableObject),
   ("unreferenced-reusable-object", .unreferencedReusableObject),
   ("consistentCasing", .consistentCasing), ("consistent-casing", .consistentCasing)]

/-- The `ConfigLoadError` carried by a thrown configuration-load failure. -/
structure ConfigLoadError where
  message : String
  configPath : String
deriving DecidableEq, Repr

/-- The error thrown for an unknown function name in a rule. -/
def mkUnknownFnError (s ruleId : String) : ConfigLoadError :=
  ⟨"Unknown Spectral function: " ++ s ++ " in rule " ++ ruleId, "ruleset.yaml"⟩

/-- Resolution of one `then` clause: a string function name is looked up in
the map (throwing on a miss); an already-bound function is kept as is. -/
def resolveThenClause (ruleId : String) (c : ThenClause) : Except ConfigLoadError ThenClause :=
  match c.function with
  | .name s =>
    match SPECTRAL_FUNCTION_MAP.lookup s with
    | some f => .ok { c with function := .fn f }
    | none => .error (mkUnknownFnError s ruleId)
  | .fn _ => .ok c

/-- `thenArray.map(...)`: resolve the normalized clause list in order,
stopping at the first thrown error. -/
def resolveClauses (ruleId : String) : List ThenClause → Except ConfigLoadError (List ThenClause)
  | [] => .ok []
  | c :: rest =>
    match resolveThenClause ruleId c with
    | .error e => .error e
    | .ok c1 =>
      match resolveClauses ruleId rest with
      | .error e => .error e
      | .ok rest1 => .ok (c1 :: rest1)

/-- The normalization `Array.isArray(rule.then) ? rule.then : [rule.then]`
(an absent `then` contributes no clauses). -/
def thenClauseList : Option ThenValue → List ThenClause
  | none => []
  | some (.single c) => [c]
  | some (.clauses cs) => cs

/-- Per-rule resolution: the resolved clauses are written back in the
original shape (single stays single, list stays list). -/
def resolveRule (ruleId : String) (r : SpectralRule) : Except ConfigLoadError SpectralRule :=
  match r.«then» with
  | none => .ok r
  | some (.single c) =>
    match resolveThenClause ruleId c with
    | .error e => .error e
    | .ok c1 => .ok { r with «then» := some (.single c1) }
  | some (.clauses cs) =>
    match resolveClauses ruleId cs with
    | .error e => .error e
    | .ok cs1 => .ok { r with «then» := some (.clauses cs1) }

/-- The `for (const [ruleId, rule] of Object.entries(ruleset.rules))` loop. -/
def resolveRulesList :
    List (String × SpectralRule) → Except ConfigLoadError (List (String × SpectralRule))
  | [] => .ok []
  | (ruleId, r) :: rest =>
    match resolveRule ruleId r with
    | .error e => .error e
    | .ok r1 =>
      match resolveRulesList rest with
      | .error e => .error e
      | .ok rest1 => .ok ((ruleId, r1) :: rest1)

/-- `resolveRuleFunctions(ruleset)` from loader.ts. -/
def resolveRuleFunctions (ruleset : SpectralRuleset) : Except ConfigLoadError SpectralRuleset :=
  match resolveRulesList ruleset.rules with
  | .error e => .error e
  | .ok rules1 => .ok { ruleset with rules := rules1 }

/-- Shape comparison for the `then` field of a rule before and after
resolution: absent stays absent, a single clause stays a single clause, a
clause list stays a clause list of the same length. -/
def thenShape : Option ThenValue → Option ThenValue → Bool
  | none, none => true
  | some (.single _), some (.single _) => true
  | some (.clauses l1), some (.clauses l2) => l1.length == l2.length
  | _, _ => false

/-- Rule `rid` of `ruleset` references the unknown function name `s` in one
of its `then` clauses. -/
def offendingFn (ruleset : SpectralRuleset) (rid s : String) : Prop :=
  ∃ r c, (rid, r) ∈ ruleset.rules ∧ c ∈ thenClauseList r.«then» ∧
    c.function = FnRef.name s ∧ SPECTRAL_FUNCTION_MAP.lookup s = none

/-! ## Category scores (`calculateCategoryScores`, auditor.ts) -/

/-- The four scored categories iterated by `calculateCategoryScores`. -/
def scoredCategories : List String :=
  ["security", "completeness", "structure", "consistency"]

/-- Severity-based default penalty used when no explicit penalty is
configured: 10 for `error`, 5 for `warn`, 2 otherwise. -/
def defaultPenaltyPoints (s : Severity) : ℚ :=
  match s with
  | .error => 10
  | .warn => 5
  | _ => 2

/-- Points one violation contributes: the rule's configured `points` when a
penalty entry exists, otherwise the severity default. -/
def violationPoints (cfg : ScoringConfig) (v : Violation) : ℚ :=
  match cfg.penalties.lookup v.ruleId with
  | some penalty => penalty.points
  | none => defaultPenaltyPoints v.severity

/-- `calculateCategoryScores(violations, scoringConfig, ruleset)`: per scored
category, the violations classified into it and their point sum. -/
def calculateCategoryScores (violations : List Violation) (cfg : ScoringConfig)
    (ruleset : SpectralRuleset) : List CategoryScore :=
  scoredCategories.map fun category =>
    let categoryViolations := violations.filter fun v =>
      getRuleCategory v.ruleId (ruleTags ruleset v.ruleId) == category
    let pointsDeducted := (categoryViolations.map (violationPoints cfg)).sum
    { category := category
      weight := weightOf cfg.weights category
      pointsDeducted := pointsDeducted
      violations := categoryViolations }

/-! ## Score calculator (`Auditor.calculateScore`, auditor.ts) -/

/-- `violations.some(v => this.scoringConfig.penalties[v.ruleId]?.fatal === true)`. -/
def hasFatalViolation (cfg : ScoringConfig) (violations : List Violation) : Bool :=
  violations.any fun v =>
    match cfg.penalties.lookup v.ruleId with
    | some p => p.fatal
    | none => false

/-- `Auditor.calculateScore(violations, categoryScores)`: fatal short-circuit
to `(0, true)`; otherwise weighted penalties subtracted from the base score,
clamped at 0. -/
def calculateScore (cfg : ScoringConfig) (violations : List Violation)
    (categoryScores : List CategoryScore) : ℚ × Bool :=
  if hasFatalViolation cfg violations then (0, true)
  else
    let totalPenalty := (categoryScores.map fun c => c.pointsDeducted * c.weight).sum
    (max 0 (cfg.base_score - totalPenalty), false)

/-- `Math.round(finalScore)` as reported by `Auditor.audit`; `Math.round`
rounds half up, which is Mathlib's `round`. -/
def reportedFinalScore (score : ℚ) : ℤ :=
  round score

/-- Modelled from the spec's words for §4.5 (used only to compare against
`calculateScore`): for each of the four scored categories, the category
weight times the sum of the penalty points of the violations classified into
that category, summed across categories. -/
def specTotalPenalty (cfg : ScoringConfig) (ruleset : SpectralRuleset)
    (violations : List Violation) : ℚ :=
  (scoredCategories.map fun category =>
    weightOf cfg.weights category *
      ((violations.filter fun v =>
          getRuleCategory v.ruleId (ruleTags ruleset v.ruleId) == category).map
        (violationPoints cfg)).sum).sum

/-! ## Grading-scale validator (`validateGradingScale`, loader.ts) -/

/-- A raw (unvalidated) grading scale: any grade key may be missing. -/
structure RawGradingScale where
  A : Option GradeThreshold := none
  B : Option GradeThreshold := none
  C : Option GradeThreshold := none
  D : Option GradeThreshold := none
  F : Option GradeThreshold := none
deriving DecidableEq, Repr

/-- The `grades` array `['A','B','C','D','F']` paired with each looked-up
threshold, in the order the validator walks them. -/
def gradeEntries (scale : RawGradingScale) : List (String × Option GradeThreshold) :=
  [("A", scale.A), ("B", scale.B), ("C", scale.C), ("D", scale.D), ("F", scale.F)]

/-- The per-grade errors of `validateGradingScale`'s first loop: missing
grade, or `min > max`. -/
def gradePresenceErrors (name : String) (g : Option GradeThreshold) : List String :=
  match g with
  | none => ["Missing grade threshold for " ++ name]
  | some t =>
    if t.min > t.max then
      ["Grade " ++ name ++ " has invalid range: min (" ++ toString t.min ++ ") > max ("
        ++ toString t.max ++ ")"]
    else []

/-- Stable insertion step for sorting thresholds by ascending `max`. -/
def insertByMax (t : GradeThreshold) : List GradeThreshold → List GradeThreshold
  | [] => [t]
  | u :: us => if t.max ≤ u.max then t :: u :: us else u :: insertByMax t us

/-- `sort((a, b) => a.max - b.max)`: stable ascending sort by `max`. -/
def sortByMax : List GradeThreshold → List GradeThreshold
  | [] => []
  | t :: ts => insertByMax t (sortByMax ts)

/-- The gap/overlap errors of `validateGradingScale`'s second loop: each
adjacent pair of the sorted thresholds must satisfy
`current.max + 1 == next.min`. -/
def gapErrors : List GradeThreshold → List String
  | current :: next :: rest =>
    (if current.max + 1 ≠ next.min then
      ["Gap/overlap between grades at " ++ toString current.max ++ " and " ++ toString next.min]
    else []) ++ gapErrors (next :: rest)
  | _ => []

/-- `validateGradingScale(scale)` from loader.ts. -/
def validateGradingScale (scale : RawGradingScale) : List String :=
  ((gradeEntries scale).flatMap fun e => gradePresenceErrors e.1 e.2)
    ++ gapErrors (sortByMax ((gradeEntries scale).filterMap (·.2)))

/-! ## Casing-consistency detector (`src/functions/consistent-casing.js`) -/

/-- `IGNORED_KEYS`: OpenAPI schema keywords skipped by the traversal. -/
def IGNORED_KEYS : List String :=
  ["type", "format", "properties", "items", "required", "description", "example", "examples"]

/-- ASCII `[a-z]`. -/
def isLowerAZ (c : Char) : Bool := 'a' ≤ c && c ≤ 'z'

/-- ASCII `[A-Z]`. -/
def isUpperAZ (c : Char) : Bool := 'A' ≤ c && c ≤ 'Z'

/-- ASCII `[0-9]`. -/
def isDigit09 (c : Char) : Bool := '0' ≤ c && c ≤ '9'

/-- `CAMEL_CASE_PATTERN = /^[a-z][a-zA-Z0-9]*$/` as a recognizer. -/
def camelPattern (s : String) : Bool :=
  match s.data with
  | [] => false
  | c :: rest => isLowerAZ c && rest.all (fun d => isLowerAZ d || isUpperAZ d || isDigit09 d)

/-- Split a character list on `'_'`, keeping empty segments (so leading,
trailing and doubled underscores yield an empty segment). -/
def splitOnUnderscore : List Char → List (List Char)
  | [] => [[]]
  | c :: rest =>
    let r := splitOnUnderscore rest
    if c = '_' then [] :: r
    else
      match r with
      | seg :: segs => (c :: seg) :: segs
      | [] => [[c]]

/-- One `[a-z][a-z0-9]*` segment of the snake_case regex. -/
def snakeSegment : List Char → Bool
  | [] => false
  | c :: rest => isLowerAZ c && rest.all (fun d => isLowerAZ d || isDigit09 d)

/-- `SNAKE_CASE_PATTERN = /^[a-z][a-z0-9]*(_[a-z][a-z0-9]*)*$/` as a
recognizer: every underscore-separated segment matches `[a-z][a-z0-9]*`. -/
def snakePattern (s : String) : Bool :=
  (splitOnUnderscore s.data).all snakeSegment

/-- `isCamelCase(key)`: the camel pattern and no underscore. -/
def isCamelCase (key : String) : Bool :=
  camelPattern key && !(key.data.contains '_')

/-- `isSnakeCase(key)`: the snake pattern and at least one underscore. -/
def isSnakeCase (key : String) : Bool :=
  snakePattern key && key.data.contains '_'

/-- The mutable `stats` record threaded through `countCasingStyles`. -/
structure CasingStats where
  camelCase : Nat
  snakeCase : Nat
  total : Nat
deriving DecidableEq, Repr

/-- A JSON-like value: an object (ordered string keys), an array, `null`, or
any other primitive. -/
inductive Json where
  | obj : List (String × Json) → Json
  | arr : List Json → Json
  | null : Json
  | prim : Json
deriving Repr

/-- JavaScript `typeof v === 'object'` (true for objects, arrays and null). -/
def Json.isObjectType : Json → Bool
  | .obj _ => true
  | .arr _ => true
  | .null => true
  | .prim => false

/-- JavaScript `typeof v === 'object' && v !== null`. -/
def Json.isRecursable : Json → Bool
  | .obj _ => true
  | .arr _ => true
  | _ => false

mutual

/-- `countCasingStyles(obj, stats)`: non-objects (and null) return the stats
unchanged; objects walk their keys; arrays walk index keys "0", "1", …
(JavaScript `Object.keys` of an array). -/
def countCasingStyles : Json → CasingStats → CasingStats
  | .obj entries, stats => countEntries entries stats
  | .arr elems, stats => countElems 0 elems stats
  | _, stats => stats
termination_by j _ => (sizeOf j, 0)

/-- The `for (const key of Object.keys(obj))` loop over object entries. -/
def countEntries : List (String × Json) → CasingStats → CasingStats
  | [], stats => stats
  | (key, v) :: rest, stats => countEntries rest (countEntry key v stats)
termination_by l _ => (sizeOf l, 0)

/-- The loop body for one key: ignored keys add nothing but recursion still
descends into `properties` and `items` object values; other keys bump
`total`, are classified camel / snake (else-if), and their object values are
recursed into. -/
def countEntry (key : String) (v : Json) (stats : CasingStats) : CasingStats :=
  if IGNORED_KEYS.contains key then
    let s1 := if key == "properties" && v.isObjectType then countCasingStyles v stats else stats
    if key == "items" && v.isObjectType then countCasingStyles v s1 else s1
  else
    let s1 : CasingStats :=
      { camelCase := stats.camelCase + (if isCamelCase key then 1 else 0)
        snakeCase := stats.snakeCase + (if !isCamelCase key && isSnakeCase key then 1 else 0)
        total := stats.total + 1 }
    if v.isRecursable then countCasingStyles v s1 else s1
termination_by (sizeOf v, 1)

/-- Array traversal: element i is visited under the index key `toString i`. -/
def countElems : Nat → List Json → CasingStats → CasingStats
  | _, [], stats => stats
  | i, e :: rest, stats => countElems (i + 1) rest (countEntry (toString i) e stats)
termination_by _ l _ => (sizeOf l, 0)

end

/-- The content of the single finding message emitted by the detector: both
counts, the majority and minority styles, and the minority ratio. -/
structure CasingFinding where
  camelCount : Nat
  snakeCount : Nat
  majorityStyle : String
  minorityStyle : String
  ratio : ℚ
deriving DecidableEq, Repr

/-- `consistentCasing(targetVal, ...)`: no finding for ≤ 5 keys or a single
style; exactly one finding when the minority ratio exceeds 0.20. -/
def consistentCasing (targetVal : Json) : List CasingFinding :=
  let stats := countCasingStyles targetVal ⟨0, 0, 0⟩
  if stats.total ≤ 5 then []
  else
    let majority := max stats.camelCase stats.snakeCase
    let minority := min stats.camelCase stats.snakeCase
    if minority = 0 then []
    else
      let ratio : ℚ := (minority : ℚ) / ((majority : ℚ) + (minority : ℚ))
      if ratio > 0.20 then
        [{ camelCount := stats.camelCase
           snakeCount := stats.snakeCase
           majorityStyle := if stats.camelCase > stats.snakeCase then "camelCase" else "snake_case"
           minorityStyle := if stats.camelCase > stats.snakeCase then "snake_case" else "camelCase"
           ratio := ratio }]
      else []

/-! ## Concrete example inputs used by witnesses -/

/-- A six-key object with five camelCase keys and one snake_case key
(minority ratio 1/6 ≤ 0.20). -/
def sixKeysOneSnake : Json :=
  .obj [("alphaOne", .prim), ("betaTwo", .prim), ("gammaThree", .prim),
        ("deltaFour", .prim), ("epsilonFive", .prim), ("zeta_six", .prim)]

/-- A six-key object with four camelCase keys and two snake_case keys
(minority ratio 1/3 > 0.20). -/
def sixKeysTwoSnake : Json :=
  .obj [("alphaOne", .prim), ("betaTwo", .prim), ("gammaThree", .prim),
        ("deltaFour", .prim), ("epsilon_five", .prim), ("zeta_six", .prim)]

/-- A grading scale whose ranges are contiguous but cover [1,101] instead of
[0,100]; `validateGradingScale` accepts it. -/
def shiftedScale : RawGradingScale :=
  ⟨some ⟨91, 101⟩, some ⟨81, 90⟩, some ⟨71, 80⟩, some ⟨61, 70⟩, some ⟨1, 60⟩⟩

/-- The default grading scale of `config/scoring.yaml`, in raw form. -/
def rawDefaultScale : RawGradingScale :=
  ⟨some ⟨90, 100⟩, some ⟨80, 89⟩, some ⟨70, 79⟩, some ⟨60, 69⟩, some ⟨0, 59⟩⟩

/-- The default grading scale from `config/scoring.yaml` (A 90–100, B 80–89,
C 70–79, D 60–69, F 0–59). -/
def defaultScale : GradingScale :=
  ⟨⟨90, 100⟩, ⟨80, 89⟩, ⟨70, 79⟩, ⟨60, 69⟩, ⟨0, 59⟩⟩

/-- Example scoring configuration: base 100, default weights, one configured
30-point non-fatal penalty for rule `com-docs`. -/
def exampleScoringConfig : ScoringConfig :=
  ⟨100, ⟨35/100, 25/100, 25/100, 10/100, 5/100⟩, [("com-docs", ⟨30, false⟩)], defaultScale⟩

/-- Example rule set: one untagged rule whose ID prefix classifies it into
`completeness`. -/
def exampleRuleset : SpectralRuleset :=
  ⟨none, [("com-docs", ⟨"error responses must be documented", .warn, none, none⟩)]⟩

/-- Example violation list: a single `com-docs` violation. -/
def exampleViolations : List Violation :=
  [⟨"com-docs", .warn, "missing error responses", "paths", none, none⟩]

/-! ## Result conversion and summary counting (`Auditor.audit`, auditor.ts) -/

/-- A raw Spectral finding as consumed by `convertResults`: numeric severity
0–3 and a path as segments. -/
structure SpectralResult where
  code : String
  severity : ℤ
  message : String
  path : List String
  line : Option Nat := none
  column : Option Nat := none
deriving DecidableEq, Repr

/-- The severity translation of `convertResults`: numeric severity 0/1/2
maps to error/warn/info, anything else to hint. -/
def convertSeverity (n : ℤ) : Severity :=
  if n = 0 then Severity.error
  else if n = 1 then Severity.warn
  else if n = 2 then Severity.info
  else Severity.hint

/-- `convertResults(spectralResults)`: severity translated via
`convertSeverity`; path segments joined with dots. -/
def convertResults (results : List SpectralResult) : List Violation :=
  results.map fun r =>
    { ruleId := r.code
      severity := convertSeverity r.severity
      message := r.message
      path := String.intercalate "." r.path
      line := r.line
      column := r.column }

/-- The `summary` block of an `AuditResult`. -/
structure AuditSummary where
  totalViolations : Nat
  errorCount : Nat
  warningCount : Nat
  infoCount : Nat
  fatalCount : Nat
deriving DecidableEq, Repr

/-- The summary counts computed inside `Auditor.audit`: filters of the
violation list by severity, plus the fatal count. -/
def auditSummary (cfg : ScoringConfig) (violations : List Violation) : AuditSummary :=
  { totalViolations := violations.length
    errorCount := (violations.filter fun v => v.severity == Severity.error).length
    warningCount := (violations.filter fun v => v.severity == Severity.warn).length
    infoCount := (violations.filter fun v => v.severity == Severity.info).length
    fatalCount := (violations.filter fun v =>
      match cfg.penalties.lookup v.ruleId with
      | some p => p.fatal
      | none => false).length }

/-- A ruleset whose single rule references an unknown function name. -/
def badRuleset : SpectralRuleset :=
  ⟨none, [("sec-test", ⟨"d", .error, none, some (.single ⟨.name "frobnicate", none⟩)⟩)]⟩

/-- A ruleset whose rules reference only known function names, one with a
single clause and one with a clause list. -/
def goodRuleset : SpectralRuleset :=
  ⟨none, [("sec-a", ⟨"a", .error, none, some (.single ⟨.name "truthy", none⟩)⟩),
          ("com-b", ⟨"b", .warn, none,
            some (.clauses [⟨.name "pattern", none⟩, ⟨.name "casing", none⟩])⟩)]⟩

/-- The expected resolution of `goodRuleset`: names replaced by bound
evaluators, shapes unchanged. -/
def goodResolved : SpectralRuleset :=
  ⟨none, [("sec-a", ⟨"a", .error, none, some (.single ⟨.fn .truthy, none⟩)⟩),
          ("com-b", ⟨"b", .warn, none,
            some (.clauses [⟨.fn .pattern, none⟩, ⟨.fn .casing, none⟩])⟩)]⟩

/-- Example violation list containing a `hint` violation. -/
def hintedViolations : List Violation :=
  [⟨"com-a", .error, "a", "p", none, none⟩,
   ⟨"com-b", .warn, "b", "p", none, none⟩,
   ⟨"com-c", .hint, "c", "p", none, none⟩]

end AuditAPI

namespace AuditAPI

/-! ## Theorems -/

/-- C9: `getRuleCategory` resolves by tag priority, then identifier prefix,
then the `completeness` default (it agrees with the spec-side resolution
order), always returns one of the four scored categories, and in particular
never returns `architecture`. -/
theorem getRuleCategory_spec (ruleId : String) (tags : Option (List String)) :
    getRuleCategory ruleId tags = specClassify ruleId tags ∧
    getRuleCategory ruleId tags ∈ ["security", "completeness", "structure", "consistency"] ∧
    getRuleCategory ruleId tags ≠ "architecture" := by
  refine ⟨?_, ?_, ?_⟩ <;>
  · cases tags <;>
      simp only [getRuleCategory, specClassify, tagCategory, List.find?] <;>
      split_ifs <;> simp_all

/-- C5 (grade monotonicity): for any grading scale, a strictly higher score
never receives a worse letter grade in the ranking A > B > C > D > F. -/
theorem calculateGrade_monotone (scale : GradingScale) (s1 s2 : ℚ) (h : s1 > s2) :
    GRADE_ORDER (calculateGrade s1 scale) ≥ GRADE_ORDER (calculateGrade s2 scale) := by
  unfold calculateGrade
  split_ifs <;> simp [GRADE_ORDER] <;> linarith

/-- Witness for C5 at a concrete scale and score pair. -/
theorem calculateGrade_monotone_witness :
    GRADE_ORDER (calculateGrade 95 ⟨⟨90, 100⟩, ⟨80, 89⟩, ⟨70, 79⟩, ⟨60, 69⟩, ⟨0, 59⟩⟩) ≥
      GRADE_ORDER (calculateGrade 85 ⟨⟨90, 100⟩, ⟨80, 89⟩, ⟨70, 79⟩, ⟨60, 69⟩, ⟨0, 59⟩⟩) :=
  calculateGrade_monotone _ 95 85 (by norm_num)

/-- C6: `validateWeights` accepts a weights mapping exactly when its values
sum to 1.0 within a tolerance of 0.001 and every one of the five required
categories is present as a key. -/
theorem validateWeights_spec (weights : List (String × ℚ)) :
    validateWeights weights = [] ↔
      (|weightsSum weights - 1| ≤ 1/1000 ∧
        (requiredCategories.all fun c => weights.any (fun kv => kv.1 == c)) = true) := by
  have hite : ∀ (b : Prop) [inst : Decidable b] (l : List String),
      (if b then l else []) = [] ↔ (l = [] ∨ ¬ b) := by
    intro b inst l
    split_ifs with hb <;> simp [hb]
  have hite2 : ∀ (b : Prop) [inst : Decidable b] (l : List String),
      (if b then [] else l) = [] ↔ (b ∨ l = []) := by
    intro b inst l
    split_ifs with hb <;> simp [hb]
  simp only [validateWeights, requiredCategories, List.flatMap_cons, List.flatMap_nil,
    List.append_nil, List.append_eq_nil, List.all_cons, List.all_nil, Bool.and_eq_true,
    and_true]
  rw [hite, hite2, hite2, hite2, hite2, hite2]
  simp [not_lt]

/-- Witness for C6 at the default weight configuration. -/
theorem validateWeights_spec_witness :
    validateWeights [("security", 35/100), ("completeness", 25/100), ("structure", 25/100),
      ("consistency", 10/100), ("architecture", 5/100)] = [] :=
  (validateWeights_spec _).mpr ⟨by norm_num [weightsSum], by decide⟩

/-- C1 (fatal override): whenever some violation's rule has a configured
penalty with `fatal = true`, `calculateScore` returns score 0 and
`hasFatalErrors = true`, for every configuration and every list of category
scores (no weighted computation affects the result). -/
theorem calculateScore_fatal (cfg : ScoringConfig) (violations : List Violation)
    (categoryScores : List CategoryScore)
    (h : ∃ v ∈ violations, ∃ p, cfg.penalties.lookup v.ruleId = some p ∧ p.fatal = true) :
    calculateScore cfg violations categoryScores = (0, true) := by
  obtain ⟨v, hv, p, hp, hfatal⟩ := h
  have hany : hasFatalViolation cfg violations = true := by
    rw [hasFatalViolation, List.any_eq_true]
    exact ⟨v, hv, by rw [hp]; exact hfatal⟩
  simp [calculateScore, hany]

/-- Witness for C1: a fatal security violation zeroes the score even though
another category carries a large nonzero weighted penalty. -/
theorem calculateScore_fatal_witness :
    calculateScore
      ⟨100, ⟨35/100, 25/100, 25/100, 10/100, 5/100⟩, [("sec-no-auth", ⟨50, true⟩)],
        ⟨⟨90, 100⟩, ⟨80, 89⟩, ⟨70, 79⟩, ⟨60, 69⟩, ⟨0, 59⟩⟩⟩
      [⟨"sec-no-auth", Severity.error, "auth missing", "paths", none, none⟩]
      [⟨"completeness", 25/100, 200, []⟩] = (0, true) :=
  calculateScore_fatal _ _ _
    ⟨⟨"sec-no-auth", Severity.error, "auth missing", "paths", none, none⟩,
      List.mem_singleton.mpr rfl, ⟨50, true⟩, rfl, rfl⟩

/-- C2 (weighted scoring): with no fatal-configured rule among the
violations, `calculateScore` on the category breakdown returns exactly
`max 0 (base_score - Σ_category weight · Σ points)` with the fatal flag
false, where a violation's points are the configured penalty points or the
10/5/2 severity default; the reported score is that value rounded half-up to
an integer. -/
theorem calculateScore_weighted (cfg : ScoringConfig) (ruleset : SpectralRuleset)
    (violations : List Violation) (h : hasFatalViolation cfg violations = false) :
    calculateScore cfg violations (calculateCategoryScores violations cfg ruleset)
        = (max 0 (cfg.base_score - specTotalPenalty cfg ruleset violations), false) ∧
      reportedFinalScore
          (calculateScore cfg violations (calculateCategoryScores violations cfg ruleset)).1
        = round (max 0 (cfg.base_score - specTotalPenalty cfg ruleset violations)) := by
  have hmap : ((calculateCategoryScores violations cfg ruleset).map
      fun c => c.pointsDeducted * c.weight).sum = specTotalPenalty cfg ruleset violations := by
    simp only [calculateCategoryScores, specTotalPenalty, List.map_map]
    congr 1
    apply List.map_congr_left
    intro c _
    simp [mul_comm]
  have h1 : calculateScore cfg violations (calculateCategoryScores violations cfg ruleset)
      = (max 0 (cfg.base_score - specTotalPenalty cfg ruleset violations), false) := by
    simp only [calculateScore, h, Bool.false_eq_true, if_false]
    rw [hmap]
  exact ⟨h1, by rw [h1]; rfl⟩

/-- Witness for C2: base score 100, one completeness violation with a
configured 30-point penalty at category weight 0.25, giving score 92.5,
reported as 93. -/
theorem calculateScore_weighted_witness :
    calculateScore exampleScoringConfig exampleViolations
        (calculateCategoryScores exampleViolations exampleScoringConfig exampleRuleset)
        = (max 0 (exampleScoringConfig.base_score
            - specTotalPenalty exampleScoringConfig exampleRuleset exampleViolations), false)
      ∧ reportedFinalScore
          (calculateScore exampleScoringConfig exampleViolations
            (calculateCategoryScores exampleViolations exampleScoringConfig exampleRuleset)).1
        = 93 := by
  have hw := calculateScore_weighted exampleScoringConfig exampleRuleset exampleViolations
    (by decide)
  refine ⟨hw.1, ?_⟩
  rw [hw.2]
  have hsec : (exampleViolations.filter fun v =>
      getRuleCategory v.ruleId (ruleTags exampleRuleset v.ruleId) == "security") = [] := by decide
  have hcom : (exampleViolations.filter fun v =>
      getRuleCategory v.ruleId (ruleTags exampleRuleset v.ruleId) == "completeness")
      = exampleViolations := by decide
  have hstr : (exampleViolations.filter fun v =>
      getRuleCategory v.ruleId (ruleTags exampleRuleset v.ruleId) == "structure") = [] := by decide
  have hcns : (exampleViolations.filter fun v =>
      getRuleCategory v.ruleId (ruleTags exampleRuleset v.ruleId) == "consistency") = [] := by
    decide
  have hmap30 : exampleViolations.map (violationPoints exampleScoringConfig) = [30] := by decide
  have w1 : weightOf exampleScoringConfig.weights "security" = 35/100 := rfl
  have w2 : weightOf exampleScoringConfig.weights "completeness" = 25/100 := rfl
  have w3 : weightOf exampleScoringConfig.weights "structure" = 25/100 := rfl
  have w4 : weightOf exampleScoringConfig.weights "consistency" = 10/100 := rfl
  have e2 : specTotalPenalty exampleScoringConfig exampleRuleset exampleViolations = 15/2 := by
    simp only [specTotalPenalty, scoredCategories, List.map_cons, List.map_nil, List.sum_cons,
      List.sum_nil, hsec, hcom, hstr, hcns, hmap30, w1, w2, w3, w4]
    norm_num
  have b : exampleScoringConfig.base_score = 100 := rfl
  rw [e2, b, max_eq_right (by norm_num : (0:ℚ) ≤ 100 - 15/2)]
  norm_num [round_eq]

theorem gradePresenceErrors_eq_nil (name : String) (g : Option GradeThreshold) :
    gradePresenceErrors name g = [] ↔ ∃ t, g = some t ∧ t.min ≤ t.max := by
  cases g with
  | none => simp [gradePresenceErrors]
  | some t =>
    simp only [gradePresenceErrors]
    split_ifs with h
    · simp [not_le.mpr h]
    · simp [not_lt.mp h]

theorem gapErrors_eq_nil (l : List GradeThreshold) :
    gapErrors l = [] ↔ List.Chain' (fun a b => a.max + 1 = b.min) l := by
  induction l with
  | nil => simp [gapErrors]
  | cons a t ih =>
    cases t with
    | nil => simp [gapErrors]
    | cons b u =>
      by_cases h : a.max + 1 = b.min
      · simp [gapErrors, h, List.chain'_cons, ih]
      · simp [gapErrors, h, List.chain'_cons]

/-- C3 counterexample: a grading scale whose five contiguous ranges cover
[1,101] rather than [0,100] is accepted by `validateGradingScale`, so
acceptance does not force coverage of exactly [0,100]. -/
theorem validateGradingScale_shifted_accepted :
    validateGradingScale shiftedScale = [] ∧
    sortByMax ((gradeEntries shiftedScale).filterMap (·.2))
      = [⟨1, 60⟩, ⟨61, 70⟩, ⟨71, 80⟩, ⟨81, 90⟩, ⟨91, 101⟩] ∧
    (1 : ℚ) ≠ 0 ∧ (101 : ℚ) ≠ 100 := by
  refine ⟨?_, ?_, by norm_num, by norm_num⟩ <;>
    norm_num [validateGradingScale, gradeEntries, gradePresenceErrors, shiftedScale,
      sortByMax, insertByMax, gapErrors, List.filterMap]

/-- C3 (amended): every grading scale accepted by `validateGradingScale` has
all five grades present with `min ≤ max`, and sorting the ranges by `max`
yields adjacent pairs satisfying `prev.max + 1 = next.min` (a contiguous,
gapless, non-overlapping chain); acceptance does not require the covered
range to be [0,100]. -/
theorem validateGradingScale_spec (scale : RawGradingScale)
    (h : validateGradingScale scale = []) :
    (∀ e ∈ gradeEntries scale, ∃ t, e.2 = some t ∧ t.min ≤ t.max) ∧
    List.Chain' (fun a b => a.max + 1 = b.min)
      (sortByMax ((gradeEntries scale).filterMap (·.2))) := by
  rw [validateGradingScale, List.append_eq_nil] at h
  obtain ⟨h1, h2⟩ := h
  refine ⟨?_, (gapErrors_eq_nil _).mp h2⟩
  intro e he
  rw [← gradePresenceErrors_eq_nil e.1]
  exact List.flatMap_eq_nil_iff.mp h1 e he

/-- Witness for C3 (amended) at the default grading scale. -/
theorem validateGradingScale_spec_witness :
    List.Chain' (fun a b => a.max + 1 = b.min)
      (sortByMax ((gradeEntries rawDefaultScale).filterMap (·.2))) :=
  (validateGradingScale_spec rawDefaultScale (by
    norm_num [validateGradingScale, gradeEntries, gradePresenceErrors, rawDefaultScale,
      sortByMax, insertByMax, gapErrors, List.filterMap])).2

theorem severity_filter_partition (l : List Violation) :
    (l.filter fun v => v.severity == Severity.error).length
      + (l.filter fun v => v.severity == Severity.warn).length
      + (l.filter fun v => v.severity == Severity.info).length
      + (l.filter fun v => v.severity == Severity.hint).length = l.length := by
  induction l with
  | nil => simp
  | cons v t ih =>
    cases hv : v.severity <;> simp [List.filter_cons, hv] <;> omega

/-- C10: the audit summary's `totalViolations` is the length of the
violation list, the error/warning/info counts are exactly the counts of the
respective severities, and `hint` violations count toward the total but
toward none of the three, so the three severity counts fall short of the
total exactly by the number of hint violations (strictly short whenever a
hint violation is present). -/
theorem auditSummary_spec (cfg : ScoringConfig) (violations : List Violation) :
    (auditSummary cfg violations).totalViolations = violations.length ∧
    (auditSummary cfg violations).errorCount
      = (violations.filter fun v => v.severity == Severity.error).length ∧
    (auditSummary cfg violations).warningCount
      = (violations.filter fun v => v.severity == Severity.warn).length ∧
    (auditSummary cfg violations).infoCount
      = (violations.filter fun v => v.severity == Severity.info).length ∧
    (auditSummary cfg violations).errorCount + (auditSummary cfg violations).warningCount
        + (auditSummary cfg violations).infoCount
        + (violations.filter fun v => v.severity == Severity.hint).length
      = (auditSummary cfg violations).totalViolations ∧
    ((∃ v ∈ violations, v.severity = Severity.hint) →
      (auditSummary cfg violations).errorCount + (auditSummary cfg violations).warningCount
          + (auditSummary cfg violations).infoCount
        < (auditSummary cfg violations).totalViolations) := by
  refine ⟨rfl, rfl, rfl, rfl, severity_filter_partition violations, fun hhint => ?_⟩
  have hpart := severity_filter_partition violations
  have hpos : 0 < (violations.filter fun v => v.severity == Severity.hint).length := by
    obtain ⟨v, hv, hsev⟩ := hhint
    exact List.length_pos.mpr (List.ne_nil_of_mem (List.mem_filter.mpr ⟨hv, by simp [hsev]⟩))
  simp only [auditSummary]
  omega

/-- C4: the casing detector emits no finding when the subtree has at most 5
counted keys or a single style, and exactly one finding when the minority
ratio `minority / (majority + minority)` exceeds 0.20; in particular 5
camelCase + 1 snake_case keys yield no finding while 4 camelCase + 2
snake_case keys yield exactly one. -/
theorem consistentCasing_spec :
    (∀ j : Json, (consistentCasing j).length =
      (let stats := countCasingStyles j ⟨0, 0, 0⟩
       if stats.total ≤ 5 then 0
       else if min stats.camelCase stats.snakeCase = 0 then 0
       else if (((min stats.camelCase stats.snakeCase : ℕ) : ℚ) /
           (((max stats.camelCase stats.snakeCase : ℕ) : ℚ)
             + ((min stats.camelCase stats.snakeCase : ℕ) : ℚ))) > 0.20 then 1
       else 0)) ∧
    consistentCasing sixKeysOneSnake = [] ∧
    (consistentCasing sixKeysTwoSnake).length = 1 := by
  have hgen : ∀ j : Json, (consistentCasing j).length =
      (let stats := countCasingStyles j ⟨0, 0, 0⟩
       if stats.total ≤ 5 then 0
       else if min stats.camelCase stats.snakeCase = 0 then 0
       else if (((min stats.camelCase stats.snakeCase : ℕ) : ℚ) /
           (((max stats.camelCase stats.snakeCase : ℕ) : ℚ)
             + ((min stats.camelCase stats.snakeCase : ℕ) : ℚ))) > 0.20 then 1
       else 0) := by
    intro j
    simp only [consistentCasing]
    split_ifs <;> rfl
  have h1 : countCasingStyles sixKeysOneSnake ⟨0, 0, 0⟩ = ⟨5, 1, 6⟩ := by
    simp +decide [sixKeysOneSnake, countCasingStyles, countEntries, countEntry]
  have h2 : countCasingStyles sixKeysTwoSnake ⟨0, 0, 0⟩ = ⟨4, 2, 6⟩ := by
    simp +decide [sixKeysTwoSnake, countCasingStyles, countEntries, countEntry]
  refine ⟨hgen, ?_, ?_⟩
  · have h := hgen sixKeysOneSnake
    rw [h1] at h
    norm_num at h
    exact h
  · have h := hgen sixKeysTwoSnake
    rw [h2] at h
    norm_num at h
    exact h

theorem countEntry_ignored (key : String) (v : Json) (s : CasingStats)
    (hign : IGNORED_KEYS.contains key = true) :
    countEntry key v s =
      (let s1 := if key == "properties" && v.isObjectType then countCasingStyles v s else s
       if key == "items" && v.isObjectType then countCasingStyles v s1 else s1) := by
  simp only [countEntry]
  rw [if_pos hign]

theorem countEntry_not_ignored (key : String) (v : Json) (s : CasingStats)
    (hign : IGNORED_KEYS.contains key = false) :
    countEntry key v s =
      (let s1 : CasingStats :=
        ⟨s.camelCase + (if isCamelCase key then 1 else 0),
         s.snakeCase + (if !isCamelCase key && isSnakeCase key then 1 else 0),
         s.total + 1⟩
       if v.isRecursable then countCasingStyles v s1 else s1) := by
  simp only [countEntry]
  rw [if_neg (ne_true_of_eq_false hign)]

theorem countCasingStyles_mono : ∀ (j : Json) (s : CasingStats),
    s.camelCase + s.snakeCase ≤ s.total →
    (countCasingStyles j s).camelCase + (countCasingStyles j s).snakeCase
      ≤ (countCasingStyles j s).total := by
  refine countCasingStyles.induct
    (fun j s => s.camelCase + s.snakeCase ≤ s.total →
      (countCasingStyles j s).camelCase + (countCasingStyles j s).snakeCase
        ≤ (countCasingStyles j s).total)
    (fun i l s => s.camelCase + s.snakeCase ≤ s.total →
      (countElems i l s).camelCase + (countElems i l s).snakeCase ≤ (countElems i l s).total)
    (fun k v s => s.camelCase + s.snakeCase ≤ s.total →
      (countEntry k v s).camelCase + (countEntry k v s).snakeCase ≤ (countEntry k v s).total)
    (fun l s => s.camelCase + s.snakeCase ≤ s.total →
      (countEntries l s).camelCase + (countEntries l s).snakeCase ≤ (countEntries l s).total)
    ?_ ?_ ?_ ?_ ?_ ?_ ?_ ?_ ?_ ?_ ?_
  · intro entries stats ih h
    simp only [countCasingStyles]
    exact ih h
  · intro elems stats ih h
    simp only [countCasingStyles]
    exact ih h
  · intro x stats hno hna h
    cases x with
    | obj entries => exact absurd rfl (hno entries)
    | arr elems => exact absurd rfl (hna elems)
    | null => simpa only [countCasingStyles] using h
    | prim => simpa only [countCasingStyles] using h
  · intro x stats h
    simpa only [countElems] using h
  · intro i e rest stats ih3 ih2 h
    simp only [countElems]
    exact ih2 (ih3 h)
  · intro key v stats hign s1 hitems ih1 ih2 h
    have hs1 : s1 = if (key == "properties" && v.isObjectType) = true
        then countCasingStyles v stats else stats := rfl
    rw [countEntry_ignored key v stats hign]
    dsimp only
    rw [if_pos hitems]
    have hP : s1.camelCase + s1.snakeCase ≤ s1.total := by
      rw [hs1]
      by_cases hp : (key == "properties" && v.isObjectType) = true
      · rw [if_pos hp]
        exact ih1 h
      · rw [if_neg hp]
        exact h
    have := ih2 hP
    rw [hs1] at this
    exact this
  · intro key v stats hign hnitems ih1 h
    rw [countEntry_ignored key v stats hign]
    dsimp only
    rw [if_neg hnitems]
    by_cases hp : (key == "properties" && v.isObjectType) = true
    · rw [if_pos hp]
      exact ih1 h
    · rw [if_neg hp]
      exact h
  · intro key v stats hnign s1 hrec ih h
    have hf : IGNORED_KEYS.contains key = false := eq_false_of_ne_true hnign
    rw [countEntry_not_ignored key v stats hf]
    dsimp only
    rw [if_pos hrec]
    apply ih
    cases hc : isCamelCase key <;> cases hsn : isSnakeCase key <;>
      simp [hc, hsn] <;> omega
  · intro key v stats hnign hnrec h
    have hf : IGNORED_KEYS.contains key = false := eq_false_of_ne_true hnign
    rw [countEntry_not_ignored key v stats hf]
    dsimp only
    rw [if_neg hnrec]
    cases hc : isCamelCase key <;> cases hsn : isSnakeCase key <;>
      simp [hc, hsn] <;> omega
  · intro stats h
    simpa only [countEntries] using h
  · intro key v rest stats ih3 ih4 h
    simp only [countEntries]
    exact ih4 (ih3 h)

/-- C7: the casing counter classifies each key into at most one style bucket
(camelCase iff the camel pattern matches with no underscore, snake_case iff
the snake pattern matches with an underscore), so camel + snake ≤ total;
ignored keys increment no counter, with traversal still descending into the
object values of `properties` and `items`; keys matching neither pattern
increment only `total`. -/
theorem countCasingStyles_spec :
    (∀ j : Json, (countCasingStyles j ⟨0, 0, 0⟩).camelCase
        + (countCasingStyles j ⟨0, 0, 0⟩).snakeCase ≤ (countCasingStyles j ⟨0, 0, 0⟩).total) ∧
    (∀ k : String, isCamelCase k = (camelPattern k && !(k.data.contains '_'))) ∧
    (∀ k : String, isSnakeCase k = (snakePattern k && k.data.contains '_')) ∧
    (∀ k : String, (isCamelCase k && isSnakeCase k) = false) ∧
    (∀ (v : Json) (s : CasingStats), countEntry "type" v s = s) ∧
    (∀ (v : Json) (s : CasingStats), countEntry "format" v s = s) ∧
    (∀ (v : Json) (s : CasingStats), countEntry "required" v s = s) ∧
    (∀ (v : Json) (s : CasingStats), countEntry "description" v s = s) ∧
    (∀ (v : Json) (s : CasingStats), countEntry "example" v s = s) ∧
    (∀ (v : Json) (s : CasingStats), countEntry "examples" v s = s) ∧
    (∀ (v : Json) (s : CasingStats), v.isObjectType = true →
      countEntry "properties" v s = countCasingStyles v s) ∧
    (∀ (v : Json) (s : CasingStats), v.isObjectType = true →
      countEntry "items" v s = countCasingStyles v s) ∧
    (∀ (k : String) (v : Json) (s : CasingStats), IGNORED_KEYS.contains k = false →
      isCamelCase k = false → isSnakeCase k = false →
      countEntry k v s = if v.isRecursable
        then countCasingStyles v ⟨s.camelCase, s.snakeCase, s.total + 1⟩
        else ⟨s.camelCase, s.snakeCase, s.total + 1⟩) ∧
    (∀ (k : String) (v : Json) (s : CasingStats), IGNORED_KEYS.contains k = false →
      isCamelCase k = true →
      countEntry k v s = if v.isRecursable
        then countCasingStyles v ⟨s.camelCase + 1, s.snakeCase, s.total + 1⟩
        else ⟨s.camelCase + 1, s.snakeCase, s.total + 1⟩) ∧
    (∀ (k : String) (v : Json) (s : CasingStats), IGNORED_KEYS.contains k = false →
      isCamelCase k = false → isSnakeCase k = true →
      countEntry k v s = if v.isRecursable
        then countCasingStyles v ⟨s.camelCase, s.snakeCase + 1, s.total + 1⟩
        else ⟨s.camelCase, s.snakeCase + 1, s.total + 1⟩) := by
  refine ⟨fun j => countCasingStyles_mono j ⟨0, 0, 0⟩ (Nat.le_refl 0),
    fun k => rfl, fun k => rfl, ?_, ?_, ?_, ?_, ?_, ?_, ?_, ?_, ?_, ?_, ?_, ?_⟩
  · intro k
    cases h : k.data.contains '_' with
    | false =>
      simp only [isCamelCase, isSnakeCase, h, Bool.and_false, Bool.false_and]
    | true =>
      simp only [isCamelCase, isSnakeCase, h, Bool.not_true, Bool.and_false, Bool.false_and]
  · intro v s
    rw [countEntry_ignored "type" v s (by decide)]
    simp +decide
  · intro v s
    rw [countEntry_ignored "format" v s (by decide)]
    simp +decide
  · intro v s
    rw [countEntry_ignored "required" v s (by decide)]
    simp +decide
  · intro v s
    rw [countEntry_ignored "description" v s (by decide)]
    simp +decide
  · intro v s
    rw [countEntry_ignored "example" v s (by decide)]
    simp +decide
  · intro v s
    rw [countEntry_ignored "examples" v s (by decide)]
    simp +decide
  · intro v s hv
    rw [countEntry_ignored "properties" v s (by decide)]
    simp +decide [hv]
  · intro v s hv
    rw [countEntry_ignored "items" v s (by decide)]
    simp +decide [hv]
  · intro k v s hk hc hs
    rw [countEntry_not_ignored k v s hk]
    simp [hc, hs]
  · intro k v s hk hc
    rw [countEntry_not_ignored k v s hk]
    simp [hc]
  · intro k v s hk hc hs
    rw [countEntry_not_ignored k v s hk]
    simp [hc, hs]

/-- Witness for C7: the recursion identities at concrete inputs — an ignored
`properties` key descends into its object value, and a key matching neither
pattern bumps only `total`. -/
theorem countCasingStyles_spec_witness :
    countEntry "properties" (Json.obj []) ⟨0, 0, 0⟩
        = countCasingStyles (Json.obj []) ⟨0, 0, 0⟩ ∧
    countEntry "Kebab-Case" Json.prim ⟨1, 2, 3⟩ = ⟨1, 2, 4⟩ := by
  obtain ⟨-, -, -, -, -, -, -, -, -, -, hprops, -, hneither, -, -⟩ := countCasingStyles_spec
  refine ⟨hprops (Json.obj []) ⟨0, 0, 0⟩ rfl, ?_⟩
  rw [hneither "Kebab-Case" Json.prim ⟨1, 2, 3⟩ (by decide) (by decide) (by decide)]
  rfl

theorem resolveThenClause_error (ruleId : String) (c : ThenClause) (e : ConfigLoadError)
    (h : resolveThenClause ruleId c = .error e) :
    ∃ s, c.function = FnRef.name s ∧ SPECTRAL_FUNCTION_MAP.lookup s = none ∧
      e = mkUnknownFnError s ruleId := by
  cases hc : c.function with
  | name s =>
    cases hl : SPECTRAL_FUNCTION_MAP.lookup s with
    | some f => simp [resolveThenClause, hc, hl] at h
    | none =>
      refine ⟨s, rfl, hl, ?_⟩
      simp only [resolveThenClause, hc, hl] at h
      exact (Except.error.injEq _ _).mp h.symm
  | fn f => simp [resolveThenClause, hc] at h

theorem resolveThenClause_ok (ruleId : String) (c c1 : ThenClause)
    (h : resolveThenClause ruleId c = .ok c1) :
    ∀ s, c.function = FnRef.name s → SPECTRAL_FUNCTION_MAP.lookup s ≠ none := by
  intro s hc hl
  simp [resolveThenClause, hc, hl] at h

theorem resolveClauses_error (ruleId : String) (cs : List ThenClause) (e : ConfigLoadError)
    (h : resolveClauses ruleId cs = .error e) :
    ∃ c ∈ cs, ∃ s, c.function = FnRef.name s ∧ SPECTRAL_FUNCTION_MAP.lookup s = none ∧
      e = mkUnknownFnError s ruleId := by
  induction cs with
  | nil => simp [resolveClauses] at h
  | cons c rest ih =>
    cases h1 : resolveThenClause ruleId c with
    | error e1 =>
      simp only [resolveClauses, h1] at h
      obtain ⟨s, hcf, hl, he⟩ := resolveThenClause_error ruleId c e1 h1
      exact ⟨c, List.mem_cons_self c rest, s, hcf, hl,
        by rw [← (Except.error.injEq _ _).mp h, he]⟩
    | ok c1 =>
      cases h2 : resolveClauses ruleId rest with
      | error e2 =>
        simp only [resolveClauses, h1, h2] at h
        rw [(Except.error.injEq _ _).mp h] at h2
        obtain ⟨c2, hmem, s, hcf, hl, he⟩ := ih h2
        exact ⟨c2, List.mem_cons_of_mem c hmem, s, hcf, hl, he⟩
      | ok rest1 => simp [resolveClauses, h1, h2] at h

theorem resolveClauses_ok (ruleId : String) (cs cs1 : List ThenClause)
    (h : resolveClauses ruleId cs = .ok cs1) :
    cs1.length = cs.length ∧
      ∀ c ∈ cs, ∀ s, c.function = FnRef.name s → SPECTRAL_FUNCTION_MAP.lookup s ≠ none := by
  induction cs generalizing cs1 with
  | nil =>
    simp only [resolveClauses] at h
    rw [← (Except.ok.injEq _ _).mp h]
    simp
  | cons c rest ih =>
    cases h1 : resolveThenClause ruleId c with
    | error e1 => simp [resolveClauses, h1] at h
    | ok c1 =>
      cases h2 : resolveClauses ruleId rest with
      | error e2 => simp [resolveClauses, h1, h2] at h
      | ok rest1 =>
        simp only [resolveClauses, h1, h2] at h
        rw [← (Except.ok.injEq _ _).mp h]
        obtain ⟨hlen, hno⟩ := ih rest1 h2
        refine ⟨by simp [hlen], ?_⟩
        intro c2 hmem s hcf
        rcases List.mem_cons.mp hmem with heq | hmem2
        · subst heq
          exact resolveThenClause_ok ruleId c2 c1 h1 s hcf
        · exact hno c2 hmem2 s hcf

theorem resolveRule_error (ruleId : String) (r : SpectralRule) (e : ConfigLoadError)
    (h : resolveRule ruleId r = .error e) :
    ∃ c ∈ thenClauseList r.«then», ∃ s, c.function = FnRef.name s ∧
      SPECTRAL_FUNCTION_MAP.lookup s = none ∧ e = mkUnknownFnError s ruleId := by
  cases ht : r.«then» with
  | none => simp [resolveRule, ht] at h
  | some tv =>
    cases tv with
    | single c =>
      cases h1 : resolveThenClause ruleId c with
      | error e1 =>
        simp only [resolveRule, ht, h1] at h
        obtain ⟨s, hcf, hl, he⟩ := resolveThenClause_error ruleId c e1 h1
        exact ⟨c, by simp [thenClauseList, ht], s, hcf, hl,
          by rw [← (Except.error.injEq _ _).mp h, he]⟩
      | ok c1 => simp [resolveRule, ht, h1] at h
    | clauses cs =>
      cases h1 : resolveClauses ruleId cs with
      | error e1 =>
        simp only [resolveRule, ht, h1] at h
        obtain ⟨c, hmem, s, hcf, hl, he⟩ := resolveClauses_error ruleId cs e1 h1
        exact ⟨c, by simpa [thenClauseList, ht] using hmem, s, hcf, hl,
          by rw [← (Except.error.injEq _ _).mp h, he]⟩
      | ok cs1 => simp [resolveRule, ht, h1] at h

theorem resolveRule_ok (ruleId : String) (r r1 : SpectralRule)
    (h : resolveRule ruleId r = .ok r1) :
    thenShape r.«then» r1.«then» = true ∧
      ∀ c ∈ thenClauseList r.«then», ∀ s, c.function = FnRef.name s →
        SPECTRAL_FUNCTION_MAP.lookup s ≠ none := by
  cases ht : r.«then» with
  | none =>
    simp only [resolveRule, ht] at h
    rw [← (Except.ok.injEq _ _).mp h]
    constructor
    · rw [ht]
      rfl
    · simp [thenClauseList]
  | some tv =>
    cases tv with
    | single c =>
      cases h1 : resolveThenClause ruleId c with
      | error e1 => simp [resolveRule, ht, h1] at h
      | ok c1 =>
        simp only [resolveRule, ht, h1] at h
        rw [← (Except.ok.injEq _ _).mp h]
        constructor
        · rfl
        · intro c2 hmem s hcf
          have hc2 : c2 = c := by simpa [thenClauseList] using hmem
          subst hc2
          exact resolveThenClause_ok ruleId c2 c1 h1 s hcf
    | clauses cs =>
      cases h1 : resolveClauses ruleId cs with
      | error e1 => simp [resolveRule, ht, h1] at h
      | ok cs1 =>
        simp only [resolveRule, ht, h1] at h
        rw [← (Except.ok.injEq _ _).mp h]
        obtain ⟨hlen, hno⟩ := resolveClauses_ok ruleId cs cs1 h1
        constructor
        · simp [thenShape, hlen]
        · intro c2 hmem s hcf
          have hmem2 : c2 ∈ cs := by simpa [thenClauseList] using hmem
          exact hno c2 hmem2 s hcf

theorem resolveRulesList_error (rules : List (String × SpectralRule)) (e : ConfigLoadError)
    (h : resolveRulesList rules = .error e) :
    ∃ rid r, (rid, r) ∈ rules ∧ ∃ c ∈ thenClauseList r.«then», ∃ s,
      c.function = FnRef.name s ∧ SPECTRAL_FUNCTION_MAP.lookup s = none ∧
      e = mkUnknownFnError s rid := by
  induction rules with
  | nil => simp [resolveRulesList] at h
  | cons p rest ih =>
    obtain ⟨rid, r⟩ := p
    cases h1 : resolveRule rid r with
    | error e1 =>
      simp only [resolveRulesList, h1] at h
      obtain ⟨c, hmem, s, hcf, hl, he⟩ := resolveRule_error rid r e1 h1
      exact ⟨rid, r, List.mem_cons_self _ _, c, hmem, s, hcf, hl,
        by rw [← (Except.error.injEq _ _).mp h, he]⟩
    | ok r1 =>
      cases h2 : resolveRulesList rest with
      | error e2 =>
        simp only [resolveRulesList, h1, h2] at h
        rw [(Except.error.injEq _ _).mp h] at h2
        obtain ⟨rid2, r2, hmem, rest2⟩ := ih h2
        exact ⟨rid2, r2, List.mem_cons_of_mem _ hmem, rest2⟩
      | ok rest1 => simp [resolveRulesList, h1, h2] at h

theorem resolveRulesList_ok (rules rules1 : List (String × SpectralRule))
    (h : resolveRulesList rules = .ok rules1) :
    List.Forall₂ (fun a b => a.1 = b.1 ∧ thenShape a.2.«then» b.2.«then» = true) rules rules1 ∧
      ∀ rid r, (rid, r) ∈ rules → ∀ c ∈ thenClauseList r.«then», ∀ s,
        c.function = FnRef.name s → SPECTRAL_FUNCTION_MAP.lookup s ≠ none := by
  induction rules generalizing rules1 with
  | nil =>
    simp only [resolveRulesList] at h
    rw [← (Except.ok.injEq _ _).mp h]
    simp
  | cons p rest ih =>
    obtain ⟨rid, r⟩ := p
    cases h1 : resolveRule rid r with
    | error e1 => simp [resolveRulesList, h1] at h
    | ok r1 =>
      cases h2 : resolveRulesList rest with
      | error e2 => simp [resolveRulesList, h1, h2] at h
      | ok rest1 =>
        simp only [resolveRulesList, h1, h2] at h
        rw [← (Except.ok.injEq _ _).mp h]
        obtain ⟨hshape, hno⟩ := resolveRule_ok rid r r1 h1
        obtain ⟨hall, hnorest⟩ := ih rest1 h2
        refine ⟨List.Forall₂.cons ⟨rfl, hshape⟩ hall, ?_⟩
        intro rid2 r2 hmem c hc s hcf
        rcases List.mem_cons.mp hmem with heq | hmem2
        · obtain ⟨he1, he2⟩ := Prod.mk.injEq .. |>.mp heq
          rw [he2] at hc
          exact hno c hc s hcf
        · exact hnorest rid2 r2 hmem2 c hc s hcf

/-- C8: if any rule's `then` clause names an unknown function, configuration
load fails with a `ConfigLoadError` whose message names an offending rule ID
and the unknown function name (the rule is never silently skipped); when all
names are known, resolution succeeds and every rule's `then` keeps its
original shape (absent stays absent, single stays single, list stays a list
of the same length, rule IDs and order preserved). -/
theorem resolveRuleFunctions_spec :
    (∀ (ruleset : SpectralRuleset) (rid s : String), offendingFn ruleset rid s →
      ∃ rid2 s2, offendingFn ruleset rid2 s2 ∧
        resolveRuleFunctions ruleset = .error (mkUnknownFnError s2 rid2)) ∧
    (∀ (ruleset resolved : SpectralRuleset), resolveRuleFunctions ruleset = .ok resolved →
      List.Forall₂ (fun a b => a.1 = b.1 ∧ thenShape a.2.«then» b.2.«then» = true)
        ruleset.rules resolved.rules) := by
  constructor
  · intro ruleset rid s hoff
    cases h1 : resolveRulesList ruleset.rules with
    | ok rules1 =>
      exfalso
      obtain ⟨r, c, hmem, hc, hcf, hl⟩ := hoff
      exact (resolveRulesList_ok ruleset.rules rules1 h1).2 rid r hmem c hc s hcf hl
    | error e =>
      obtain ⟨rid2, r2, hmem, c2, hc2, s2, hcf2, hl2, he⟩ :=
        resolveRulesList_error ruleset.rules e h1
      refine ⟨rid2, s2, ⟨r2, c2, hmem, hc2, hcf2, hl2⟩, ?_⟩
      simp only [resolveRuleFunctions, h1]
      rw [he]
  · intro ruleset resolved h
    cases h1 : resolveRulesList ruleset.rules with
    | error e => simp [resolveRuleFunctions, h1] at h
    | ok rules1 =>
      simp only [resolveRuleFunctions, h1] at h
      have : resolved.rules = rules1 := by
        rw [← (Except.ok.injEq _ _).mp h]
      rw [this]
      exact (resolveRulesList_ok ruleset.rules rules1 h1).1

/-- Witness for C8: a ruleset whose only rule references the unknown
function `frobnicate` fails to load with the error naming both the rule and
the function, and a known-functions ruleset resolves with shapes intact. -/
theorem resolveRuleFunctions_spec_witness :
    resolveRuleFunctions badRuleset
        = .error ⟨"Unknown Spectral function: frobnicate in rule sec-test", "ruleset.yaml"⟩ ∧
    List.Forall₂ (fun a b => a.1 = b.1 ∧ thenShape a.2.«then» b.2.«then» = true)
      goodRuleset.rules goodResolved.rules := by
  constructor
  · obtain ⟨rid2, s2, hoff, herr⟩ := resolveRuleFunctions_spec.1 badRuleset "sec-test" "frobnicate"
      ⟨⟨"d", .error, none, some (.single ⟨.name "frobnicate", none⟩)⟩,
        ⟨.name "frobnicate", none⟩, by decide, by decide, rfl, by decide⟩
    obtain ⟨r2, c2, hmem, hc2, hcf2, -⟩ := hoff
    have hr : rid2 = "sec-test" ∧
        r2 = (⟨"d", .error, none, some (.single ⟨.name "frobnicate", none⟩)⟩ : SpectralRule) := by
      have := List.mem_singleton.mp hmem
      exact ⟨congrArg Prod.fst this, congrArg Prod.snd this⟩
    have hs : s2 = "frobnicate" := by
      rw [hr.2] at hc2
      have hc : c2 = (⟨.name "frobnicate", none⟩ : ThenClause) := by
        simpa [thenClauseList] using hc2
      rw [hc] at hcf2
      exact (FnRef.name.injEq _ _).mp hcf2.symm
    rw [hr.1, hs] at herr
    exact herr
  · exact resolveRuleFunctions_spec.2 goodRuleset goodResolved (by rfl)

/-- Witness for C10: with one error, one warning and one hint violation the
three severity counts sum to 2, strictly below the total of 3. -/
theorem auditSummary_spec_witness :
    (auditSummary exampleScoringConfig hintedViolations).errorCount
        + (auditSummary exampleScoringConfig hintedViolations).warningCount
        + (auditSummary exampleScoringConfig hintedViolations).infoCount
      < (auditSummary exampleScoringConfig hintedViolations).totalViolations :=
  (auditSummary_spec exampleScoringConfig hintedViolations).2.2.2.2.2
    ⟨⟨"com-c", .hint, "c", "p", none, none⟩, by decide, rfl⟩

end AuditAPI
